import Mathlib

/-!
Verification development for the scope-rs serial terminal core.

The definitions below are a shallow embedding of the Rust sources:
- `crates/scope-core/src/format.rs` (mixed-ASCII and ANSI segmenters),
- `src/gui/terminal_view.rs` (`encode_mux_frame`),
- `crates/scope-core/src/engine.rs` (the connection-engine task body).

Bytes are modelled as `Nat` (the Rust code works on `u8`), strings as Lean
`String`, and the engine's effects (serial open/read/write results, the
monotone clock) as explicit oracle inputs to a pure step function.
-/

namespace Scope

/-! ## String helper lemmas -/

theorem strData_append (a b : String) : (a ++ b).data = a.data ++ b.data := by
  cases a; cases b; rfl

theorem strExt {a b : String} (h : a.data = b.data) : a = b := by
  cases a; cases b; exact congrArg String.mk h

theorem str_append_assoc (a b c : String) : a ++ b ++ c = a ++ (b ++ c) := by
  apply strExt; simp [strData_append]

theorem str_append_empty (a : String) : a ++ "" = a := by
  apply strExt; simp [strData_append]

theorem str_empty_append (a : String) : "" ++ a = a := by
  apply strExt; simp [strData_append]

theorem str_eq_empty_iff (s : String) : s = "" ↔ s.data = [] := by
  constructor
  · intro h; rw [h]
  · intro h; exact strExt h

theorem str_append_right_ne_empty (a b : String) (h : b ≠ "") : a ++ b ≠ "" := by
  intro hc
  rw [str_eq_empty_iff] at hc
  rw [strData_append] at hc
  rcases List.append_eq_nil.mp hc with ⟨_, h2⟩
  exact h ((str_eq_empty_iff b).mpr h2)

/-! ## Display segments (`format.rs`) -/

inductive SegmentKind where
  | Plain
  | Escape
deriving DecidableEq, Repr

inductive AnsiColor where
  | Reset
  | Black
  | Red
  | Green
  | Yellow
  | Blue
  | Magenta
  | Cyan
  | White
  | DarkGray
  | LightGreen
deriving DecidableEq, Repr

structure Segment where
  text : String
  kind : SegmentKind
deriving DecidableEq, Repr

structure StyledSegment where
  text : String
  kind : SegmentKind
  color : AnsiColor
deriving DecidableEq, Repr

/-- Lowercase hex digit, as produced by Rust's `{:02x}` formatting. -/
def hexDigit (n : Nat) : Char :=
  if n < 10 then Char.ofNat (48 + n) else Char.ofNat (87 + n)

/-- Two lowercase hex digits of a byte (`{b:02x}` for `b < 256`). -/
def hexOfByte (b : Nat) : String :=
  ⟨[hexDigit (b / 16), hexDigit (b % 16)]⟩

/-- The text pushed for one byte by the `bytes_to_mixed_segments` loop:
printable ASCII is the literal character, 0x0a and 0x0d are the two-character
escapes, anything else is `\xHH` with lowercase hex. -/
def renderByte (b : Nat) : String :=
  if 0x20 ≤ b ∧ b ≤ 0x7E then String.singleton (Char.ofNat b)
  else if b = 0x0a then "\\n"
  else if b = 0x0d then "\\r"
  else "\\x" ++ hexOfByte b

/-- The segment kind chosen for one byte by the source's match arms. -/
def byteClassKind (b : Nat) : SegmentKind :=
  if 0x20 ≤ b ∧ b ≤ 0x7E then SegmentKind.Plain else SegmentKind.Escape

/-- The `flush` closure of `bytes_to_mixed_segments`: push the buffer as a
segment when it is non-empty. -/
def flushSeg (out : List Segment) (buf : String) (kind : SegmentKind) : List Segment :=
  if buf = "" then out else out ++ [⟨buf, kind⟩]

/-- Loop state of `bytes_to_mixed_segments`. -/
structure MixAcc where
  out : List Segment
  buf : String
  kind : SegmentKind

/-- One iteration of the `for &b in bytes` loop of `bytes_to_mixed_segments`:
if the byte's class differs from the current kind, flush and restart the
buffer with the byte's rendering, otherwise append the rendering. -/
def mixStep (acc : MixAcc) (b : Nat) : MixAcc :=
  let k := byteClassKind b
  if acc.kind ≠ k then ⟨flushSeg acc.out acc.buf acc.kind, renderByte b, k⟩
  else ⟨acc.out, acc.buf ++ renderByte b, acc.kind⟩

/-- `bytes_to_mixed_segments` from `format.rs`. -/
def bytes_to_mixed_segments (bytes : List Nat) : List Segment :=
  let acc := bytes.foldl mixStep ⟨[], "", SegmentKind.Plain⟩
  flushSeg acc.out acc.buf acc.kind

/-- Concatenation of segment texts (Rust `map(|s| s.text).collect::<String>()`). -/
def concatText (segs : List Segment) : String :=
  segs.foldl (fun a s => a ++ s.text) ""

/-- `bytes_to_mixed_ascii` from `format.rs`. -/
def bytes_to_mixed_ascii (bytes : List Nat) : String :=
  concatText (bytes_to_mixed_segments bytes)

/-- Spec-side rendering: the per-byte substitution applied independently to
each byte and concatenated. -/
def renderedAll : List Nat → String
  | [] => ""
  | b :: bs => renderByte b ++ renderedAll bs

/-- No two adjacent segments share a kind. -/
def segAlt : List Segment → Bool
  | a :: b :: rest => decide (a.kind ≠ b.kind) && segAlt (b :: rest)
  | _ => true

/-! ## ANSI color-run parsing (`format.rs`) -/

/-- Byte-slice comparison at the head of a list (the slice equality test at
one scan position inside `replace_all`). -/
def leadsWith : List Nat → List Nat → Bool
  | [], _ => true
  | _ :: _, [] => false
  | a :: as, b :: bs => a == b && leadsWith as bs

/-- `contains` from `format.rs`: `haystack.windows(needle.len()).any(|w| w == needle)`. -/
def containsSub : List Nat → List Nat → Bool
  | [], needle => needle == []
  | hay@(_ :: rest), needle => leadsWith needle hay || containsSub rest needle

/-- `replace_all` from `format.rs`: left-to-right scan replacing each
occurrence of `needle` and jumping past it.  (The source never calls it with
an empty needle; there its `while` loop would not terminate, here the guard
makes the empty needle a no-op.) -/
def replace_all (haystack needle replacement : List Nat) : List Nat :=
  match haystack with
  | [] => []
  | b :: rest =>
    if h : needle ≠ [] ∧ leadsWith needle (b :: rest) = true then
      replacement ++ replace_all ((b :: rest).drop needle.length) needle replacement
    else
      b :: replace_all rest needle replacement
termination_by haystack.length
decreasing_by
  · have hn : 0 < needle.length := List.length_pos.mpr h.1
    simp only [List.length_drop, List.length_cons]
    omega
  · simp only [List.length_cons]
    omega

/-- The fixed ordered SGR pattern table of `bytes_to_ansi_segments`. -/
def ansiPatterns : List (List Nat × AnsiColor) :=
  [ ([0x1b, 0x5b, 0x30, 0x6d], AnsiColor.Reset),
    ([0x1b, 0x5b, 0x33, 0x30, 0x6d], AnsiColor.Black),
    ([0x1b, 0x5b, 0x33, 0x31, 0x6d], AnsiColor.Red),
    ([0x1b, 0x5b, 0x31, 0x3b, 0x33, 0x31, 0x6d], AnsiColor.Red),
    ([0x1b, 0x5b, 0x33, 0x32, 0x6d], AnsiColor.Green),
    ([0x1b, 0x5b, 0x31, 0x3b, 0x33, 0x32, 0x6d], AnsiColor.Green),
    ([0x1b, 0x5b, 0x33, 0x33, 0x6d], AnsiColor.Yellow),
    ([0x1b, 0x5b, 0x31, 0x3b, 0x33, 0x33, 0x6d], AnsiColor.Yellow),
    ([0x1b, 0x5b, 0x33, 0x34, 0x6d], AnsiColor.Blue),
    ([0x1b, 0x5b, 0x33, 0x35, 0x6d], AnsiColor.Magenta),
    ([0x1b, 0x5b, 0x33, 0x36, 0x6d], AnsiColor.Cyan),
    ([0x1b, 0x5b, 0x33, 0x37, 0x6d], AnsiColor.White) ]

/-- The `for (pattern, new_color) in patterns { .. break }` search: first
table entry contained in the buffer. -/
def findPattern (buffer : List Nat) : List (List Nat × AnsiColor) → Option (List Nat × AnsiColor)
  | [] => none
  | (p, c) :: rest =>
    if containsSub buffer p then some (p, c) else findPattern buffer rest

/-- The accent color chosen by `bytes_to_string_segments`. -/
def accentOf (color : AnsiColor) : AnsiColor :=
  if color = AnsiColor.Yellow then AnsiColor.DarkGray else AnsiColor.Yellow

/-- The escape text pushed by the non-printable arm of `bytes_to_string_segments`. -/
def escText (b : Nat) : String :=
  if b = 0x0a then "\\n"
  else if b = 0x0d then "\\r"
  else "\\x" ++ hexOfByte b

/-- The `flush` closure of `bytes_to_string_segments`. -/
def flushStyled (out : List StyledSegment) (buf : String) (kind : SegmentKind)
    (color : AnsiColor) : List StyledSegment :=
  if buf = "" then out else out ++ [⟨buf, kind, color⟩]

/-- Loop state of `bytes_to_string_segments`. -/
structure StrAcc where
  output : List StyledSegment
  buffer : String
  in_plain : Bool

/-- One iteration of the `for byte in msg` loop of `bytes_to_string_segments`. -/
def strStep (color accent : AnsiColor) (acc : StrAcc) (b : Nat) : StrAcc :=
  if 0x20 ≤ b ∧ b ≤ 0x7E then
    if acc.in_plain then ⟨acc.output, acc.buffer ++ String.singleton (Char.ofNat b), true⟩
    else ⟨flushStyled acc.output acc.buffer SegmentKind.Escape accent,
          String.singleton (Char.ofNat b), true⟩
  else
    let acc1 : StrAcc :=
      if acc.in_plain then
        ⟨flushStyled acc.output acc.buffer SegmentKind.Plain color, "", false⟩
      else acc
    ⟨acc1.output, acc1.buffer ++ escText b, false⟩

/-- `bytes_to_string_segments` from `format.rs`. -/
def bytes_to_string_segments (msg : List Nat) (color : AnsiColor) : List StyledSegment :=
  let accent := accentOf color
  let acc := msg.foldl (strStep color accent) ⟨[], "", true⟩
  if acc.buffer = "" then acc.output
  else
    acc.output ++
      [⟨acc.buffer,
        if acc.in_plain then SegmentKind.Plain else SegmentKind.Escape,
        if acc.in_plain then color else accent⟩]

/-- Loop state of `bytes_to_ansi_segments`. -/
structure AnsiAcc where
  output : List StyledSegment
  buffer : List Nat
  color : AnsiColor

/-- One iteration of the `for byte in msg` loop of `bytes_to_ansi_segments`:
push the byte; if it is `m`, look for the first table pattern contained in
the buffer, and on a match emit the cleaned buffer with the previous color,
clear the buffer and switch the active color. -/
def ansiStep (acc : AnsiAcc) (byte : Nat) : AnsiAcc :=
  let buffer := acc.buffer ++ [byte]
  if byte = 0x6d then
    match findPattern buffer ansiPatterns with
    | some (p, c) =>
      ⟨acc.output ++ bytes_to_string_segments (replace_all buffer p []) acc.color, [], c⟩
    | none => ⟨acc.output, buffer, acc.color⟩
  else ⟨acc.output, buffer, acc.color⟩

/-- The three literal control sequences stripped up front by
`bytes_to_ansi_segments` (`\x1b[m`, `\x1b[8D`, `\x1b[J`). -/
def stripCtl (bytes : List Nat) : List Nat :=
  replace_all (replace_all (replace_all bytes [0x1b, 0x5b, 0x6d] []) [0x1b, 0x5b, 0x38, 0x44] [])
    [0x1b, 0x5b, 0x4a] []

/-- The fold of the `bytes_to_ansi_segments` loop over an already-stripped
message, from the initial accumulator. -/
def ansiRun (msg : List Nat) : AnsiAcc :=
  msg.foldl ansiStep ⟨[], [], AnsiColor.Reset⟩

/-- `bytes_to_ansi_segments` from `format.rs`. -/
def bytes_to_ansi_segments (bytes : List Nat) : List StyledSegment :=
  let acc := ansiRun (stripCtl bytes)
  if acc.buffer = [] then acc.output
  else acc.output ++ bytes_to_string_segments acc.buffer acc.color

/-! ## Multiplexing frame encoder (`terminal_view.rs`) -/

/-- `encode_mux_frame` from `terminal_view.rs`: SOF, LINK, FLAGS(6b)|LENGTH(10b)
big-endian, DATA truncated to 1023 bytes, nLINK = LINK XOR 0xFF. -/
def encode_mux_frame (data : List Nat) (link_id : Nat) : List Nat :=
  let data_len := min data.length 1023
  let flags : Nat := 0
  let length_field : Nat := (flags <<< 10) ||| (data_len &&& 0x03FF)
  [0xBF, link_id, (length_field >>> 8) % 256, length_field &&& 0xFF]
    ++ data.take data_len ++ [Nat.xor link_id 0xFF]

/-! ## Connection engine (`engine.rs`, `model.rs`)

The engine task body is embedded as a pure step function over an explicit
state record.  The effectful pieces are oracle inputs: the result of
`try_open`, the result of `port.read`, the result of `write_all`, and the
current value of the monotone clock (`tokio::time::Instant`, modelled as a
`Nat` of milliseconds).  The wall-clock timestamp `LogMessage.at`
(`chrono::Local::now()`) is an ambient effect irrelevant to every claim and
is not modelled. -/

inductive Direction where
  | Rx
  | Tx
  | System
deriving DecidableEq, Repr

inductive FlowControl where
  | None
  | Software
  | Hardware
deriving DecidableEq, Repr

inductive DataBits where
  | Five
  | Six
  | Seven
  | Eight
deriving DecidableEq, Repr

inductive Parity where
  | None
  | Odd
  | Even
deriving DecidableEq, Repr

inductive StopBits where
  | One
  | Two
deriving DecidableEq, Repr

structure SerialConfig where
  port : String
  baudrate : Nat
  flow_control : FlowControl
  data_bits : DataBits
  parity : Parity
  stop_bits : StopBits
deriving DecidableEq, Repr

/-- The `Default` impl of `SerialConfig` in `model.rs`. -/
def SerialConfig.default : SerialConfig :=
  ⟨"", 115200, FlowControl.None, DataBits.Eight, Parity.None, StopBits.One⟩

/-- `LogMessage` without its wall-clock timestamp field. -/
structure LogMessage where
  direction : Direction
  bytes : List Nat
deriving DecidableEq, Repr

inductive ConnectionState where
  | Disconnected
  | Connecting
  | Connected
deriving DecidableEq, Repr

inductive EngineCommand where
  | Connect (cfg : SerialConfig)
  | Disconnect
  | SendBytes (bytes : List Nat)
deriving DecidableEq, Repr

inductive EngineEvent where
  | ConnectionState (s : ConnectionState)
  | Message (m : LogMessage)
  | Error (text : String)
deriving DecidableEq, Repr

/-- UTF-8 bytes of a string (`String::into_bytes`). -/
def strToBytes (s : String) : List Nat :=
  s.toUTF8.toList.map (fun b => b.toNat)

/-- The `System` message emitted on a successful open:
`format!("Connected to {} @ {}", cfg.port, cfg.baudrate)`. -/
def connectedMsg (cfg : SerialConfig) : LogMessage :=
  ⟨Direction.System, strToBytes ("Connected to " ++ cfg.port ++ " @ " ++ toString cfg.baudrate)⟩

/-- The text displayed for a failed open.  The engine wraps the
`serialport::Error` with `anyhow::Context`, and `Error::to_string` shows the
outermost context message only. -/
def openErrText (cfg : SerialConfig) : String :=
  "Failed to open serial port " ++ cfg.port ++ " @ " ++ toString cfg.baudrate

/-- Outcome of one `try_open` call. -/
inductive OpenResult where
  | ok
  | err
deriving DecidableEq, Repr

/-- Outcome of one `port.read` call: `Ok(n)` with the bytes read, or an
`io::Error` whose kind may or may not be `TimedOut`. -/
inductive ReadResult where
  | ok (data : List Nat)
  | err (timedOut : Bool) (msg : String)
deriving DecidableEq, Repr

/-- Outcome of one `write_all` call. -/
inductive WriteResult where
  | ok
  | err (msg : String)
deriving DecidableEq, Repr

/-- The local mutable state of the engine task (`state`, `desired`, `port`,
`backoff_ms`, `next_retry`); the open handle is abstracted to whether one is
open. -/
structure EngineState where
  state : ConnectionState
  desired : Option SerialConfig
  port : Bool
  backoff_ms : Nat
  next_retry : Nat
deriving DecidableEq, Repr

/-- Result of servicing one `select!` arm: the new state, the events sent
(in order), and how many `try_open` / device-write calls were made. -/
structure StepOut where
  st : EngineState
  events : List EngineEvent
  opens : Nat
  writes : Nat
deriving DecidableEq, Repr

/-- The `EngineCommand::Connect` arm. -/
def stepConnect (s : EngineState) (cfg : SerialConfig) (now : Nat) (o : OpenResult) : StepOut :=
  let s1 : EngineState :=
    { s with
      desired := some cfg, port := false, state := ConnectionState.Connecting }
  match o with
  | OpenResult.ok =>
    { st := { s1 with
              port := true, state := ConnectionState.Connected,
              backoff_ms := 200, next_retry := now },
      events := [EngineEvent.ConnectionState ConnectionState.Connecting,
                 EngineEvent.ConnectionState ConnectionState.Connected,
                 EngineEvent.Message (connectedMsg cfg)],
      opens := 1, writes := 0 }
  | OpenResult.err =>
    { st := { s1 with
              port := false, next_retry := now + s1.backoff_ms,
              backoff_ms := min (s1.backoff_ms * 2) 2000 },
      events := [EngineEvent.ConnectionState ConnectionState.Connecting,
                 EngineEvent.Error (openErrText cfg)],
      opens := 1, writes := 0 }

/-- The `EngineCommand::Disconnect` arm. -/
def stepDisconnect (s : EngineState) : StepOut :=
  { st := { s with desired := none, port := false, state := ConnectionState.Disconnected },
    events := [EngineEvent.ConnectionState ConnectionState.Disconnected],
    opens := 0, writes := 0 }

/-- The `EngineCommand::SendBytes` arm. -/
def stepSendBytes (s : EngineState) (bytes : List Nat) (w : WriteResult) : StepOut :=
  if s.port then
    match w with
    | WriteResult.ok =>
      { st := s, events := [EngineEvent.Message ⟨Direction.Tx, bytes⟩], opens := 0, writes := 1 }
    | WriteResult.err msg =>
      { st := s, events := [EngineEvent.Error msg], opens := 0, writes := 1 }
  else
    { st := s, events := [EngineEvent.Error "Not connected"], opens := 0, writes := 0 }

/-- The retry half of the tick arm: if a config is desired, no handle is
open, and the deadline has elapsed, attempt an open exactly as `Connect`
does. -/
def tickRetry (s : EngineState) (now : Nat) (o : OpenResult) : StepOut :=
  match s.desired with
  | none => { st := s, events := [], opens := 0, writes := 0 }
  | some cfg =>
    if s.port then { st := s, events := [], opens := 0, writes := 0 }
    else if s.next_retry ≤ now then
      match o with
      | OpenResult.ok =>
        { st := { s with
                  port := true, state := ConnectionState.Connected,
                  backoff_ms := 200, next_retry := now },
          events := [EngineEvent.ConnectionState ConnectionState.Connecting,
                     EngineEvent.ConnectionState ConnectionState.Connected,
                     EngineEvent.Message (connectedMsg cfg)],
          opens := 1, writes := 0 }
      | OpenResult.err =>
        { st := { s with
                  state := ConnectionState.Connecting,
                  next_retry := now + s.backoff_ms,
                  backoff_ms := min (s.backoff_ms * 2) 2000 },
          events := [EngineEvent.ConnectionState ConnectionState.Connecting,
                     EngineEvent.Error (openErrText cfg)],
          opens := 1, writes := 0 }
    else { st := s, events := [], opens := 0, writes := 0 }

/-- The read half of the tick arm: bounded read on an open handle; `Ok(0)`
is a no-op, `Ok(n)` emits an `Rx` message, a timeout error is ignored, any
other read error closes the handle. -/
def tickRead (s : EngineState) (now : Nat) (r : ReadResult) : StepOut :=
  if s.port then
    match r with
    | ReadResult.ok [] => { st := s, events := [], opens := 0, writes := 0 }
    | ReadResult.ok data =>
      { st := s, events := [EngineEvent.Message ⟨Direction.Rx, data⟩], opens := 0, writes := 0 }
    | ReadResult.err timedOut msg =>
      if timedOut then { st := s, events := [], opens := 0, writes := 0 }
      else if s.desired.isSome then
        { st := { s with
                  port := false, state := ConnectionState.Connecting,
                  next_retry := now + s.backoff_ms,
                  backoff_ms := min (s.backoff_ms * 2) 2000 },
          events := [EngineEvent.Error msg,
                     EngineEvent.ConnectionState ConnectionState.Connecting],
          opens := 0, writes := 0 }
      else
        { st := { s with port := false, state := ConnectionState.Disconnected },
          events := [EngineEvent.Error msg,
                     EngineEvent.ConnectionState ConnectionState.Disconnected],
          opens := 0, writes := 0 }
  else { st := s, events := [], opens := 0, writes := 0 }

/-- The whole tick arm: retry phase then read phase. -/
def stepTick (s : EngineState) (now : Nat) (o : OpenResult) (r : ReadResult) : StepOut :=
  let a := tickRetry s now o
  let b := tickRead a.st now r
  { st := b.st, events := a.events ++ b.events,
    opens := a.opens + b.opens, writes := a.writes + b.writes }

/-- One servicing of the `select!` loop: a command (with its I/O outcome) or
a tick. -/
inductive EngineInput where
  | connect (cfg : SerialConfig) (now : Nat) (o : OpenResult)
  | disconnect
  | send (bytes : List Nat) (w : WriteResult)
  | tick (now : Nat) (o : OpenResult) (r : ReadResult)
deriving DecidableEq, Repr

def step (s : EngineState) : EngineInput → StepOut
  | EngineInput.connect cfg now o => stepConnect s cfg now o
  | EngineInput.disconnect => stepDisconnect s
  | EngineInput.send bytes w => stepSendBytes s bytes w
  | EngineInput.tick now o r => stepTick s now o r

/-- The engine task's state just after the local variables are initialised. -/
def engineInit : EngineState :=
  ⟨ConnectionState.Disconnected, none, false, 200, 0⟩

/-- The single event published before the loop is entered. -/
def initEvents : List EngineEvent :=
  [EngineEvent.ConnectionState ConnectionState.Disconnected]

/-- Run a sequence of serviced inputs, concatenating events and effect
counts. -/
def runTrace (s : EngineState) : List EngineInput → StepOut
  | [] => { st := s, events := [], opens := 0, writes := 0 }
  | i :: rest =>
    let o := step s i
    let r := runTrace o.st rest
    { st := r.st, events := o.events ++ r.events,
      opens := o.opens + r.opens, writes := o.writes + r.writes }

/-- The full event stream published by the spawned task for a sequence of
serviced inputs: the pre-loop event followed by the loop's events. -/
def spawnEvents (inputs : List EngineInput) : List EngineEvent :=
  initEvents ++ (runTrace engineInit inputs).events

/-- Input is a `Connect` command. -/
def isConnectCmd : EngineInput → Bool
  | EngineInput.connect _ _ _ => true
  | _ => false

/-! ## Theorems: multiplexing frame -/

theorem take_min_length (data : List Nat) :
    data.take (min data.length 1023) = data.take 1023 := by
  rw [Nat.min_comm, ← List.take_take, List.take_length]

/-- Claim C2: for every payload and link id, `encode_mux_frame` returns
`SOF(0xBF)`, the link id, the 6-bit flags (0) and 10-bit length packed
big-endian into two bytes, the payload truncated to 1023 bytes, and
`link XOR 0xFF`; its length is `5 + min(len, 1023)`; and
`encode_mux_frame [] 0xFF = [0xBF, 0xFF, 0, 0, 0]`. -/
theorem C2_encode_mux_frame (data : List Nat) (link : Nat) :
    (encode_mux_frame data link).length = 5 + min data.length 1023 ∧
    encode_mux_frame data link =
      [0xBF, link, min data.length 1023 / 256, min data.length 1023 % 256]
        ++ data.take 1023 ++ [Nat.xor link 0xFF] ∧
    min data.length 1023 / 256 < 4 ∧
    256 * (min data.length 1023 / 256) + min data.length 1023 % 256 = min data.length 1023 ∧
    encode_mux_frame [] 0xFF = [0xBF, 0xFF, 0, 0, 0] := by
  have hL : min data.length 1023 ≤ 1023 := Nat.min_le_right _ _
  have hfield : (0 <<< 10) ||| (min data.length 1023 &&& 0x03FF) = min data.length 1023 := by
    have h1 : min data.length 1023 &&& 0x03FF = min data.length 1023 % 2 ^ 10 :=
      Nat.and_pow_two_sub_one_eq_mod _ 10
    have h2 : min data.length 1023 % 2 ^ 10 = min data.length 1023 :=
      Nat.mod_eq_of_lt (by omega)
    simp [Nat.zero_shiftLeft, h1, h2]
  have hhi : (min data.length 1023 >>> 8) % 256 = min data.length 1023 / 256 := by
    rw [Nat.shiftRight_eq_div_pow]
    exact Nat.mod_eq_of_lt (by omega)
  have hlo : min data.length 1023 &&& 0xFF = min data.length 1023 % 256 :=
    Nat.and_pow_two_sub_one_eq_mod _ 8
  have hmain : encode_mux_frame data link =
      [0xBF, link, min data.length 1023 / 256, min data.length 1023 % 256]
        ++ data.take 1023 ++ [Nat.xor link 0xFF] := by
    show [0xBF, link, (((0 : Nat) <<< 10 ||| (min data.length 1023 &&& 0x03FF)) >>> 8) % 256,
            ((0 : Nat) <<< 10 ||| (min data.length 1023 &&& 0x03FF)) &&& 0xFF]
          ++ data.take (min data.length 1023) ++ [Nat.xor link 0xFF] = _
    rw [hfield, hhi, hlo, take_min_length]
  refine ⟨?_, hmain, by omega, by omega, by decide⟩
  rw [hmain]
  simp [List.length_append, List.length_take]
  omega

/-! ## Theorems: connection engine -/

/-- Claim C5: a `SendBytes` processed with no open handle performs no device
write, emits exactly one `Error("Not connected")` event and nothing else,
and leaves the whole engine state unchanged. -/
theorem C5_sendbytes_disconnected (s : EngineState) (bytes : List Nat) (w : WriteResult)
    (h : s.port = false) :
    step s (EngineInput.send bytes w) =
      { st := s, events := [EngineEvent.Error "Not connected"], opens := 0, writes := 0 } := by
  simp [step, stepSendBytes, h]

theorem C5_witness :
    ((⟨ConnectionState.Disconnected, none, false, 200, 0⟩ : EngineState).port = false) ∧
    step ⟨ConnectionState.Disconnected, none, false, 200, 0⟩
        (EngineInput.send [1, 2, 3] WriteResult.ok) =
      { st := ⟨ConnectionState.Disconnected, none, false, 200, 0⟩,
        events := [EngineEvent.Error "Not connected"], opens := 0, writes := 0 } :=
  ⟨rfl, C5_sendbytes_disconnected ⟨ConnectionState.Disconnected, none, false, 200, 0⟩
    [1, 2, 3] WriteResult.ok rfl⟩

/-- Claim C4: in the tick's read path (handle open, so no retry is
attempted), a timeout read error produces no event and no state change; any
other read error closes the handle and emits `Error(reason)`, then
transitions to `Connecting` and schedules the next retry from the current
backoff (which doubles) when a desired config is set, otherwise transitions
to `Disconnected`. -/
theorem C4_tick_read_errors (s : EngineState) (now : Nat) (o : OpenResult) (m : String)
    (h : s.port = true) :
    stepTick s now o (ReadResult.err true m) =
      { st := s, events := [], opens := 0, writes := 0 } ∧
    (s.desired.isSome →
      stepTick s now o (ReadResult.err false m) =
        { st := { s with
                  port := false, state := ConnectionState.Connecting,
                  next_retry := now + s.backoff_ms,
                  backoff_ms := min (s.backoff_ms * 2) 2000 },
          events := [EngineEvent.Error m,
                     EngineEvent.ConnectionState ConnectionState.Connecting],
          opens := 0, writes := 0 }) ∧
    (s.desired = none →
      stepTick s now o (ReadResult.err false m) =
        { st := { s with port := false, state := ConnectionState.Disconnected },
          events := [EngineEvent.Error m,
                     EngineEvent.ConnectionState ConnectionState.Disconnected],
          opens := 0, writes := 0 }) := by
  cases hd : s.desired <;>
    simp_all [stepTick, tickRetry, tickRead, h, hd]

theorem C4_witness :
    ((⟨ConnectionState.Connected, some SerialConfig.default, true, 400, 7⟩ : EngineState).port
        = true) ∧
    stepTick ⟨ConnectionState.Connected, some SerialConfig.default, true, 400, 7⟩ 50
        OpenResult.ok (ReadResult.err true "t") =
      { st := ⟨ConnectionState.Connected, some SerialConfig.default, true, 400, 7⟩,
        events := [], opens := 0, writes := 0 } ∧
    stepTick ⟨ConnectionState.Connected, some SerialConfig.default, true, 400, 7⟩ 50
        OpenResult.ok (ReadResult.err false "boom") =
      { st := ⟨ConnectionState.Connecting, some SerialConfig.default, false, 800, 450⟩,
        events := [EngineEvent.Error "boom",
                   EngineEvent.ConnectionState ConnectionState.Connecting],
        opens := 0, writes := 0 } := by
  have h := C4_tick_read_errors
    ⟨ConnectionState.Connected, some SerialConfig.default, true, 400, 7⟩ 50 OpenResult.ok
    "boom" rfl
  have h2 := C4_tick_read_errors
    ⟨ConnectionState.Connected, some SerialConfig.default, true, 400, 7⟩ 50 OpenResult.ok
    "t" rfl
  refine ⟨rfl, h2.1, ?_⟩
  have := h.2.1 (by decide)
  simpa using this

theorem quiescent_step (s : EngineState) (i : EngineInput)
    (hd : s.desired = none) (hp : s.port = false) (hi : isConnectCmd i = false) :
    (step s i).st.desired = none ∧ (step s i).st.port = false ∧ (step s i).opens = 0 ∧
    EngineEvent.ConnectionState ConnectionState.Connecting ∉ (step s i).events := by
  cases i with
  | connect cfg now o => simp [isConnectCmd] at hi
  | disconnect => simp [step, stepDisconnect]
  | send bytes w => simp [step, stepSendBytes, hp, hd]
  | tick now o r => simp [step, stepTick, tickRetry, tickRead, hd, hp]

theorem quiescent_run (tr : List EngineInput) :
    ∀ s : EngineState, s.desired = none → s.port = false →
    (∀ i ∈ tr, isConnectCmd i = false) →
    (runTrace s tr).opens = 0 ∧
    EngineEvent.ConnectionState ConnectionState.Connecting ∉ (runTrace s tr).events ∧
    (runTrace s tr).st.desired = none ∧ (runTrace s tr).st.port = false := by
  induction tr with
  | nil => intro s hd hp _; exact ⟨rfl, by simp [runTrace], hd, hp⟩
  | cons i rest ih =>
    intro s hd hp hall
    have hi : isConnectCmd i = false := hall i (List.mem_cons_self i rest)
    have hstep := quiescent_step s i hd hp hi
    have hrest := ih (step s i).st hstep.1 hstep.2.1
      (fun j hj => hall j (List.mem_cons_of_mem i hj))
    refine ⟨?_, ?_, hrest.2.2.1, hrest.2.2.2⟩
    · simp [runTrace, hstep.2.2.1, hrest.1]
    · simp only [runTrace, List.mem_append]
      intro hc
      rcases hc with hc | hc
      · exact hstep.2.2.2 hc
      · exact hrest.2.1 hc

/-- Claim C6: `Disconnect` clears the desired config, discards the handle,
transitions to `Disconnected` and emits exactly that state change; it is
idempotent; and from the post-`Disconnect` state, any sequence of serviced
inputs containing no `Connect` command performs no open attempt and emits no
`Connecting` state event. -/
theorem C6_disconnect_quiescence :
    (∀ s : EngineState, step s EngineInput.disconnect =
      { st := { s with
                desired := none, port := false, state := ConnectionState.Disconnected },
        events := [EngineEvent.ConnectionState ConnectionState.Disconnected],
        opens := 0, writes := 0 }) ∧
    (∀ s : EngineState,
      (step (step s EngineInput.disconnect).st EngineInput.disconnect).st =
        (step s EngineInput.disconnect).st) ∧
    (∀ (s : EngineState) (tr : List EngineInput),
      (∀ i ∈ tr, isConnectCmd i = false) →
      (runTrace (step s EngineInput.disconnect).st tr).opens = 0 ∧
      EngineEvent.ConnectionState ConnectionState.Connecting ∉
        (runTrace (step s EngineInput.disconnect).st tr).events) := by
  refine ⟨fun s => rfl, fun s => rfl, fun s tr hall => ?_⟩
  have h := quiescent_run tr (step s EngineInput.disconnect).st rfl rfl hall
  exact ⟨h.1, h.2.1⟩

theorem C6_witness :
    (∀ i ∈ [EngineInput.tick 100 OpenResult.ok (ReadResult.ok [1]),
            EngineInput.send [1] WriteResult.ok, EngineInput.disconnect],
      isConnectCmd i = false) ∧
    (runTrace (step ⟨ConnectionState.Connected, some SerialConfig.default, true, 400, 7⟩
        EngineInput.disconnect).st
      [EngineInput.tick 100 OpenResult.ok (ReadResult.ok [1]),
       EngineInput.send [1] WriteResult.ok, EngineInput.disconnect]).opens = 0 ∧
    EngineEvent.ConnectionState ConnectionState.Connecting ∉
      (runTrace (step ⟨ConnectionState.Connected, some SerialConfig.default, true, 400, 7⟩
          EngineInput.disconnect).st
        [EngineInput.tick 100 OpenResult.ok (ReadResult.ok [1]),
         EngineInput.send [1] WriteResult.ok, EngineInput.disconnect]).events := by
  refine ⟨by decide, ?_⟩
  exact C6_disconnect_quiescence.2.2
    ⟨ConnectionState.Connected, some SerialConfig.default, true, 400, 7⟩ _ (by decide)

theorem tickRetry_backoff_cases (s : EngineState) (now : Nat) (o : OpenResult) :
    (tickRetry s now o).st.backoff_ms = s.backoff_ms ∨
    (tickRetry s now o).st.backoff_ms = min (s.backoff_ms * 2) 2000 ∨
    ((tickRetry s now o).st.backoff_ms = 200 ∧ o = OpenResult.ok ∧
      s.desired.isSome = true ∧ s.port = false ∧ s.next_retry ≤ now) := by
  cases hd : s.desired with
  | none => left; simp [tickRetry, hd]
  | some cfg =>
    by_cases hp : s.port
    · left; simp [tickRetry, hd, hp]
    · by_cases ht : s.next_retry ≤ now
      · cases o with
        | ok =>
          right; right
          exact ⟨by simp [tickRetry, hd, hp, ht], rfl, by simp [hd], by simp [hp], ht⟩
        | err => right; left; simp [tickRetry, hd, hp, ht]
      · left; simp [tickRetry, hd, hp, ht]

theorem tickRead_backoff_cases (s : EngineState) (now : Nat) (r : ReadResult) :
    (tickRead s now r).st.backoff_ms = s.backoff_ms ∨
    (tickRead s now r).st.backoff_ms = min (s.backoff_ms * 2) 2000 := by
  by_cases hp : s.port
  · cases r with
    | ok data => cases data <;> left <;> simp [tickRead, hp]
    | err timedOut msg =>
      cases timedOut with
      | true => left; simp [tickRead, hp]
      | false =>
        by_cases hds : s.desired.isSome
        · right; simp [tickRead, hp, hds]
        · left; simp [tickRead, hp, hds]
  · left; simp [tickRead, hp]

theorem stepSendBytes_st (s : EngineState) (bytes : List Nat) (w : WriteResult) :
    (stepSendBytes s bytes w).st = s := by
  by_cases hp : s.port <;> cases w <;> simp [stepSendBytes, hp]

theorem step_backoff_bounds (s : EngineState) (i : EngineInput)
    (h1 : 200 ≤ s.backoff_ms) (h2 : s.backoff_ms ≤ 2000) :
    200 ≤ (step s i).st.backoff_ms ∧ (step s i).st.backoff_ms ≤ 2000 := by
  cases i with
  | connect cfg now o => cases o <;> simp [step, stepConnect] <;> omega
  | disconnect => simpa [step, stepDisconnect] using ⟨h1, h2⟩
  | send bytes w => rw [show (step s (EngineInput.send bytes w)).st = s
      from stepSendBytes_st s bytes w]; exact ⟨h1, h2⟩
  | tick now o r =>
    have ha := tickRetry_backoff_cases s now o
    have hb := tickRead_backoff_cases (tickRetry s now o).st now r
    show 200 ≤ (tickRead (tickRetry s now o).st now r).st.backoff_ms ∧
      (tickRead (tickRetry s now o).st now r).st.backoff_ms ≤ 2000
    rcases hb with hb | hb <;> rw [hb] <;>
      rcases ha with ha | ha | ⟨ha, _, _, _, _⟩ <;> rw [ha] <;> omega

theorem runTrace_backoff_bounds (tr : List EngineInput) :
    ∀ s : EngineState, 200 ≤ s.backoff_ms → s.backoff_ms ≤ 2000 →
    200 ≤ (runTrace s tr).st.backoff_ms ∧ (runTrace s tr).st.backoff_ms ≤ 2000 := by
  induction tr with
  | nil => intro s h1 h2; exact ⟨h1, h2⟩
  | cons i rest ih =>
    intro s h1 h2
    have hs := step_backoff_bounds s i h1 h2
    exact ih (step s i).st hs.1 hs.2

/-- Claim C1 is false as stated: a new `Connect` command does not reset the
backoff to the 200 ms floor.  From the initial state, two consecutive failed
`Connect` commands leave the backoff at 800 ms, while a reset-on-`Connect`
rule would leave at most 400 ms (200 doubled once by the failure). -/
theorem C1_counterexample :
    (runTrace engineInit
      [EngineInput.connect SerialConfig.default 0 OpenResult.err,
       EngineInput.connect SerialConfig.default 0 OpenResult.err]).st.backoff_ms = 800 ∧
    (800 : Nat) ≠ 400 ∧ (800 : Nat) ≠ 200 :=
  ⟨rfl, by decide, by decide⟩

/-- Claim C1 (amended): over every sequence of serviced inputs the backoff
stays within [200 ms, 2000 ms]; every failed open attempt (from a `Connect`
command or from a due scheduled retry) sets it to `min(2·backoff, 2000)`;
every successful open resets it to the 200 ms floor; and backoff drops back
to the floor from a larger value only through a successful open — a new
`Connect` command does not itself reset it, so a `Connect` whose immediate
open attempt fails doubles the inherited backoff. -/
theorem C1_backoff_amended :
    (∀ tr : List EngineInput,
      200 ≤ (runTrace engineInit tr).st.backoff_ms ∧
      (runTrace engineInit tr).st.backoff_ms ≤ 2000) ∧
    (∀ (s : EngineState) (cfg : SerialConfig) (now : Nat),
      (step s (EngineInput.connect cfg now OpenResult.err)).st.backoff_ms =
        min (s.backoff_ms * 2) 2000 ∧
      (step s (EngineInput.connect cfg now OpenResult.ok)).st.backoff_ms = 200) ∧
    (∀ (s : EngineState) (now : Nat),
      s.desired.isSome = true → s.port = false → s.next_retry ≤ now →
      (tickRetry s now OpenResult.err).st.backoff_ms = min (s.backoff_ms * 2) 2000 ∧
      (tickRetry s now OpenResult.ok).st.backoff_ms = 200) ∧
    (∀ (s : EngineState) (i : EngineInput),
      200 < s.backoff_ms → (step s i).st.backoff_ms = 200 →
      (∃ cfg now, i = EngineInput.connect cfg now OpenResult.ok) ∨
      (∃ now r, i = EngineInput.tick now OpenResult.ok r ∧
        s.desired.isSome = true ∧ s.port = false ∧ s.next_retry ≤ now)) := by
  refine ⟨fun tr => runTrace_backoff_bounds tr engineInit (by decide) (by decide),
    fun s cfg now => ⟨by simp [step, stepConnect], by simp [step, stepConnect]⟩,
    fun s now hds hp ht => ?_, fun s i h200 hres => ?_⟩
  · obtain ⟨cfg, hcfg⟩ := Option.isSome_iff_exists.mp hds
    exact ⟨by simp [tickRetry, hcfg, hp, ht], by simp [tickRetry, hcfg, hp, ht]⟩
  · cases i with
    | connect cfg now o =>
      cases o with
      | ok => exact Or.inl ⟨cfg, now, rfl⟩
      | err => exfalso; simp [step, stepConnect] at hres; omega
    | disconnect => exfalso; simp [step, stepDisconnect] at hres; omega
    | send bytes w =>
      exfalso
      rw [show (step s (EngineInput.send bytes w)).st = s
        from stepSendBytes_st s bytes w] at hres
      omega
    | tick now o r =>
      have ha := tickRetry_backoff_cases s now o
      have hb := tickRead_backoff_cases (tickRetry s now o).st now r
      have hres' : (tickRead (tickRetry s now o).st now r).st.backoff_ms = 200 := hres
      rcases ha with ha | ha | ⟨ha, hok, hsome, hport, hle⟩
      · exfalso; rcases hb with hb | hb <;> rw [ha] at hb <;> rw [hb] at hres' <;> omega
      · exfalso; rcases hb with hb | hb <;> rw [ha] at hb <;> rw [hb] at hres' <;> omega
      · subst hok; exact Or.inr ⟨now, r, rfl, hsome, hport, hle⟩

theorem C1_witness :
    (200 ≤ (runTrace engineInit []).st.backoff_ms ∧
      (runTrace engineInit []).st.backoff_ms ≤ 2000) ∧
    (step ⟨ConnectionState.Connecting, some SerialConfig.default, false, 400, 10⟩
        (EngineInput.connect SerialConfig.default 0 OpenResult.err)).st.backoff_ms =
      min (400 * 2) 2000 ∧
    ((⟨ConnectionState.Connecting, some SerialConfig.default, false, 400, 10⟩ :
        EngineState).desired.isSome = true ∧ (10 : Nat) ≤ 12) ∧
    (tickRetry ⟨ConnectionState.Connecting, some SerialConfig.default, false, 400, 10⟩ 12
        OpenResult.err).st.backoff_ms = min (400 * 2) 2000 ∧
    (tickRetry ⟨ConnectionState.Connecting, some SerialConfig.default, false, 400, 10⟩ 12
        OpenResult.ok).st.backoff_ms = 200 ∧
    ((200 : Nat) < 400 ∧
      ((∃ cfg now, (EngineInput.connect SerialConfig.default 0 OpenResult.ok) =
          EngineInput.connect cfg now OpenResult.ok) ∨
        (∃ now r, (EngineInput.connect SerialConfig.default 0 OpenResult.ok) =
            EngineInput.tick now OpenResult.ok r ∧
          (⟨ConnectionState.Connecting, some SerialConfig.default, false, 400, 10⟩ :
              EngineState).desired.isSome = true ∧
          (⟨ConnectionState.Connecting, some SerialConfig.default, false, 400, 10⟩ :
              EngineState).port = false ∧
          (⟨ConnectionState.Connecting, some SerialConfig.default, false, 400, 10⟩ :
              EngineState).next_retry ≤ now))) := by
  refine ⟨C1_backoff_amended.1 [],
    (C1_backoff_amended.2.1 _ SerialConfig.default 0).1,
    ⟨rfl, by decide⟩, ?_, ?_, ⟨by decide, ?_⟩⟩
  · exact (C1_backoff_amended.2.2.1
      ⟨ConnectionState.Connecting, some SerialConfig.default, false, 400, 10⟩ 12
      rfl rfl (by decide)).1
  · exact (C1_backoff_amended.2.2.1
      ⟨ConnectionState.Connecting, some SerialConfig.default, false, 400, 10⟩ 12
      rfl rfl (by decide)).2
  · exact C1_backoff_amended.2.2.2
      ⟨ConnectionState.Connecting, some SerialConfig.default, false, 400, 10⟩
      (EngineInput.connect SerialConfig.default 0 OpenResult.ok) (by decide) (by decide)

/-- Claim C10: the spawned task publishes exactly one
`ConnectionState(Disconnected)` event before servicing any command or tick,
so the first event on the channel is always `ConnectionState(Disconnected)`. -/
theorem C10_first_event (inputs : List EngineInput) :
    spawnEvents inputs =
      EngineEvent.ConnectionState ConnectionState.Disconnected ::
        (runTrace engineInit inputs).events ∧
    (spawnEvents inputs).head? =
      some (EngineEvent.ConnectionState ConnectionState.Disconnected) ∧
    initEvents = [EngineEvent.ConnectionState ConnectionState.Disconnected] :=
  ⟨rfl, rfl, rfl⟩

/-! ## Theorems: mixed-ASCII rendering -/

theorem str_mk_ne_empty (c : Char) (cs : List Char) : String.mk (c :: cs) ≠ "" := by
  intro h
  simpa using congrArg String.data h

theorem hexOfByte_ne_empty (b : Nat) : hexOfByte b ≠ "" :=
  str_mk_ne_empty _ _

theorem renderByte_ne_empty (b : Nat) : renderByte b ≠ "" := by
  unfold renderByte
  split_ifs
  · exact str_mk_ne_empty _ _
  · decide
  · decide
  · exact str_append_right_ne_empty _ _ (hexOfByte_ne_empty b)

theorem concatText_append_one (l : List Segment) (x : Segment) :
    concatText (l ++ [x]) = concatText l ++ x.text := by
  simp [concatText, List.foldl_append]

theorem concatText_flush (out : List Segment) (buf : String) (kind : SegmentKind) :
    concatText (flushSeg out buf kind) = concatText out ++ buf := by
  unfold flushSeg
  split
  · rename_i h; rw [h, str_append_empty]
  · rw [concatText_append_one]

theorem mixStep_text (acc : MixAcc) (b : Nat) :
    concatText (mixStep acc b).out ++ (mixStep acc b).buf =
      (concatText acc.out ++ acc.buf) ++ renderByte b := by
  by_cases h : acc.kind ≠ byteClassKind b
  · show concatText (mixStep acc b).out ++ (mixStep acc b).buf = _
    rw [show mixStep acc b =
      ⟨flushSeg acc.out acc.buf acc.kind, renderByte b, byteClassKind b⟩ from by
        unfold mixStep; rw [if_pos h]]
    rw [concatText_flush]
  · rw [show mixStep acc b = ⟨acc.out, acc.buf ++ renderByte b, acc.kind⟩ from by
      unfold mixStep; rw [if_neg h]]
    rw [str_append_assoc]

theorem mix_foldl_text (bytes : List Nat) :
    ∀ acc : MixAcc,
    concatText (bytes.foldl mixStep acc).out ++ (bytes.foldl mixStep acc).buf =
      (concatText acc.out ++ acc.buf) ++ renderedAll bytes := by
  induction bytes with
  | nil => intro acc; rw [renderedAll, str_append_empty]; rfl
  | cons b bs ih =>
    intro acc
    rw [List.foldl_cons, ih (mixStep acc b), mixStep_text, renderedAll, str_append_assoc]

/-- Claim C3: for every byte sequence, concatenating the segment texts of
`bytes_to_mixed_segments` (equivalently the string `bytes_to_mixed_ascii`)
equals the per-byte substitution applied independently to each byte:
printable ASCII maps to its literal character, 0x0a to `\n`, 0x0d to `\r`,
and every other byte to the four-character `\xHH` with lowercase hex. -/
theorem C3_mixed_rendering :
    (∀ bytes : List Nat,
      concatText (bytes_to_mixed_segments bytes) = renderedAll bytes ∧
      bytes_to_mixed_ascii bytes = renderedAll bytes) ∧
    (∀ b : Nat, b < 256 →
      (0x20 ≤ b ∧ b ≤ 0x7E → renderByte b = String.singleton (Char.ofNat b)) ∧
      (b = 0x0a → renderByte b = "\\n") ∧
      (b = 0x0d → renderByte b = "\\r") ∧
      (¬(0x20 ≤ b ∧ b ≤ 0x7E) → b ≠ 0x0a → b ≠ 0x0d →
        renderByte b = "\\x" ++ hexOfByte b ∧ (renderByte b).length = 4 ∧
        (hexOfByte b).data.all (fun c => c ∈ "0123456789abcdef".data) = true)) := by
  constructor
  · intro bytes
    have hmain : concatText (bytes_to_mixed_segments bytes) = renderedAll bytes := by
      show concatText (flushSeg (bytes.foldl mixStep ⟨[], "", SegmentKind.Plain⟩).out
        (bytes.foldl mixStep ⟨[], "", SegmentKind.Plain⟩).buf
        (bytes.foldl mixStep ⟨[], "", SegmentKind.Plain⟩).kind) = renderedAll bytes
      rw [concatText_flush, mix_foldl_text]
      show "" ++ "" ++ renderedAll bytes = renderedAll bytes
      rw [str_append_empty, str_empty_append]
    exact ⟨hmain, hmain⟩
  · intro b hb
    refine ⟨fun h => by simp [renderByte, h], fun h => by subst h; rfl,
      fun h => by subst h; rfl, fun h1 h2 h3 => ?_⟩
    have hval : renderByte b = "\\x" ++ hexOfByte b := by
      simp [renderByte, h1, h2, h3]
    have hlen : (renderByte b).length = 4 := by
      rw [hval]
      show ("\\x" ++ hexOfByte b).data.length = 4
      rw [strData_append]
      rfl
    have hmem : ∀ n : Nat, n < 16 → hexDigit n ∈ "0123456789abcdef".data := by decide
    refine ⟨hval, hlen, ?_⟩
    have hd1 : b / 16 < 16 := by omega
    have hd2 : b % 16 < 16 := by omega
    simp only [hexOfByte, List.all_cons, List.all_nil, Bool.and_true, Bool.and_eq_true,
      decide_eq_true_eq]
    exact ⟨by simpa using hmem _ hd1, by simpa using hmem _ hd2⟩

theorem C3_witness :
    concatText (bytes_to_mixed_segments [0x41, 0x0a, 0x00]) =
      renderedAll [0x41, 0x0a, 0x00] ∧
    ((0 : Nat) < 256 ∧
      (¬(0x20 ≤ (0 : Nat) ∧ (0 : Nat) ≤ 0x7E) → (0 : Nat) ≠ 0x0a → (0 : Nat) ≠ 0x0d →
        renderByte 0 = "\\x" ++ hexOfByte 0 ∧ (renderByte 0).length = 4 ∧
        (hexOfByte 0).data.all (fun c => c ∈ "0123456789abcdef".data) = true)) :=
  ⟨(C3_mixed_rendering.1 [0x41, 0x0a, 0x00]).1,
    by decide, (C3_mixed_rendering.2 0 (by decide)).2.2.2⟩

theorem segAlt_append_one (l : List Segment) (x : Segment) :
    segAlt (l ++ [x]) = true ↔
      (segAlt l = true ∧ ∀ y, l.getLast? = some y → y.kind ≠ x.kind) := by
  induction l with
  | nil => simp [segAlt]
  | cons a rest ih =>
    cases rest with
    | nil => simp [segAlt]
    | cons b rest2 =>
      have hshape : (a :: b :: rest2) ++ [x] = a :: ((b :: rest2) ++ [x]) := rfl
      rw [hshape]
      have hA : segAlt (a :: ((b :: rest2) ++ [x])) = true ↔
          a.kind ≠ b.kind ∧ segAlt ((b :: rest2) ++ [x]) = true := by
        show segAlt (a :: b :: (rest2 ++ [x])) = true ↔ _
        rw [segAlt]
        simp [Bool.and_eq_true]
      have hB : segAlt (a :: b :: rest2) = true ↔
          a.kind ≠ b.kind ∧ segAlt (b :: rest2) = true := by
        rw [segAlt]
        simp [Bool.and_eq_true]
      rw [hA, ih, hB, List.getLast?_cons_cons]
      tauto

/-- Invariant of the `bytes_to_mixed_segments` loop used for alternation:
the flushed output alternates, an empty buffer happens only before any
output, and the last flushed kind differs from the current buffer's kind. -/
def MixInv (acc : MixAcc) : Prop :=
  segAlt acc.out = true ∧
  (acc.buf = "" → acc.out = []) ∧
  (∀ y, acc.out.getLast? = some y → y.kind ≠ acc.kind)

theorem segAlt_flush (out : List Segment) (buf : String) (kind : SegmentKind)
    (h1 : segAlt out = true)
    (h3 : ∀ y, out.getLast? = some y → y.kind ≠ kind) :
    segAlt (flushSeg out buf kind) = true := by
  unfold flushSeg
  split
  · exact h1
  · exact (segAlt_append_one out ⟨buf, kind⟩).mpr ⟨h1, h3⟩

theorem MixInv_step (acc : MixAcc) (b : Nat) (h : MixInv acc) : MixInv (mixStep acc b) := by
  obtain ⟨h1, h2, h3⟩ := h
  by_cases hk : acc.kind ≠ byteClassKind b
  · rw [show mixStep acc b =
      ⟨flushSeg acc.out acc.buf acc.kind, renderByte b, byteClassKind b⟩ from by
        unfold mixStep; rw [if_pos hk]]
    refine ⟨segAlt_flush _ _ _ h1 h3, fun hbuf => absurd hbuf (renderByte_ne_empty b), ?_⟩
    intro y hy
    unfold flushSeg at hy
    split at hy
    · rename_i hbuf
      rw [h2 hbuf] at hy
      simp at hy
    · rw [List.getLast?_concat] at hy
      injection hy with hy
      rw [← hy]
      exact hk
  · rw [show mixStep acc b = ⟨acc.out, acc.buf ++ renderByte b, acc.kind⟩ from by
      unfold mixStep; rw [if_neg hk]]
    refine ⟨h1, fun hbuf => absurd hbuf (str_append_right_ne_empty _ _ (renderByte_ne_empty b)),
      h3⟩

theorem MixInv_fold (bytes : List Nat) :
    ∀ acc : MixAcc, MixInv acc → MixInv (bytes.foldl mixStep acc) := by
  induction bytes with
  | nil => intro acc h; exact h
  | cons b bs ih => intro acc h; exact ih (mixStep acc b) (MixInv_step acc b h)

/-- Claim C8: for every input, the segments of `bytes_to_mixed_segments`
strictly alternate in kind (no two adjacent segments share a kind), and the
concatenation of all segment texts is the fully-rendered mixed-ASCII
string. -/
theorem C8_alternation (bytes : List Nat) :
    segAlt (bytes_to_mixed_segments bytes) = true ∧
    concatText (bytes_to_mixed_segments bytes) = renderedAll bytes ∧
    concatText (bytes_to_mixed_segments bytes) = bytes_to_mixed_ascii bytes := by
  have hinit : MixInv ⟨[], "", SegmentKind.Plain⟩ :=
    ⟨rfl, fun _ => rfl, fun y hy => by simp at hy⟩
  have hinv := MixInv_fold bytes ⟨[], "", SegmentKind.Plain⟩ hinit
  have htext : concatText (bytes_to_mixed_segments bytes) = renderedAll bytes := by
    show concatText (flushSeg (bytes.foldl mixStep ⟨[], "", SegmentKind.Plain⟩).out
      (bytes.foldl mixStep ⟨[], "", SegmentKind.Plain⟩).buf
      (bytes.foldl mixStep ⟨[], "", SegmentKind.Plain⟩).kind) = renderedAll bytes
    rw [concatText_flush, mix_foldl_text]
    show "" ++ "" ++ renderedAll bytes = renderedAll bytes
    rw [str_append_empty, str_empty_append]
  exact ⟨segAlt_flush _ _ _ hinv.1 hinv.2.2, htext, rfl⟩

/-! ## Theorems: ANSI parsing on escape-free input -/

/-- Plain segments colored `Reset`, escape segments colored `Yellow` (the
accent for `Reset`). -/
def resetColored (s : Segment) : StyledSegment :=
  ⟨s.text, s.kind, if s.kind = SegmentKind.Plain then AnsiColor.Reset else AnsiColor.Yellow⟩

/-- Correspondence between the `bytes_to_mixed_segments` loop state and the
`bytes_to_string_segments` loop state at color `Reset`. -/
def StrRel (acc : MixAcc) (sacc : StrAcc) : Prop :=
  sacc.output = acc.out.map resetColored ∧ sacc.buffer = acc.buf ∧
  sacc.in_plain = decide (acc.kind = SegmentKind.Plain)

theorem flush_map_plain (out : List Segment) (buf : String) :
    flushStyled (out.map resetColored) buf SegmentKind.Plain AnsiColor.Reset =
      (flushSeg out buf SegmentKind.Plain).map resetColored := by
  unfold flushStyled flushSeg
  split <;> simp [resetColored]

theorem flush_map_escape (out : List Segment) (buf : String) :
    flushStyled (out.map resetColored) buf SegmentKind.Escape AnsiColor.Yellow =
      (flushSeg out buf SegmentKind.Escape).map resetColored := by
  unfold flushStyled flushSeg
  split <;> simp [resetColored]

theorem renderByte_escape (b : Nat) (h : ¬(0x20 ≤ b ∧ b ≤ 0x7E)) :
    renderByte b = escText b := by
  simp [renderByte, escText, h]

theorem strStep_rel (acc : MixAcc) (sacc : StrAcc) (b : Nat) (h : StrRel acc sacc) :
    StrRel (mixStep acc b) (strStep AnsiColor.Reset AnsiColor.Yellow sacc b) := by
  obtain ⟨ho, hb, hip⟩ := h
  by_cases hp : 0x20 ≤ b ∧ b ≤ 0x7E
  · have hk : byteClassKind b = SegmentKind.Plain := by simp [byteClassKind, hp]
    have hr : renderByte b = String.singleton (Char.ofNat b) := by simp [renderByte, hp]
    cases hkind : acc.kind with
    | Plain =>
      have hip' : sacc.in_plain = true := by rw [hip, hkind]; rfl
      rw [show mixStep acc b = ⟨acc.out, acc.buf ++ renderByte b, acc.kind⟩ from by
        unfold mixStep; rw [if_neg (by rw [hkind, hk]; simp)]]
      rw [show strStep AnsiColor.Reset AnsiColor.Yellow sacc b =
        ⟨sacc.output, sacc.buffer ++ String.singleton (Char.ofNat b), true⟩ from by
          unfold strStep; rw [if_pos hp, if_pos hip']]
      exact ⟨ho, by rw [hb, hr], by rw [hkind]; rfl⟩
    | Escape =>
      have hip' : sacc.in_plain = false := by rw [hip, hkind]; rfl
      rw [show mixStep acc b =
        ⟨flushSeg acc.out acc.buf acc.kind, renderByte b, byteClassKind b⟩ from by
          unfold mixStep; rw [if_pos (by rw [hkind, hk]; simp)]]
      rw [show strStep AnsiColor.Reset AnsiColor.Yellow sacc b =
        ⟨flushStyled sacc.output sacc.buffer SegmentKind.Escape AnsiColor.Yellow,
          String.singleton (Char.ofNat b), true⟩ from by
          unfold strStep; rw [if_pos hp, if_neg (by rw [hip']; simp)]]
      refine ⟨?_, hr.symm, by rw [hk]; rfl⟩
      rw [ho, hb, hkind, flush_map_escape]
  · have hk : byteClassKind b = SegmentKind.Escape := by simp [byteClassKind, hp]
    have hr : renderByte b = escText b := renderByte_escape b hp
    cases hkind : acc.kind with
    | Plain =>
      have hip' : sacc.in_plain = true := by rw [hip, hkind]; rfl
      rw [show mixStep acc b =
        ⟨flushSeg acc.out acc.buf acc.kind, renderByte b, byteClassKind b⟩ from by
          unfold mixStep; rw [if_pos (by rw [hkind, hk]; simp)]]
      rw [show strStep AnsiColor.Reset AnsiColor.Yellow sacc b =
        ⟨flushStyled sacc.output sacc.buffer SegmentKind.Plain AnsiColor.Reset,
          "" ++ escText b, false⟩ from by
          unfold strStep; rw [if_neg hp, if_pos hip']]
      refine ⟨?_, ?_, by rw [hk]; rfl⟩
      · rw [ho, hb, hkind, flush_map_plain]
      · rw [str_empty_append, hr]
    | Escape =>
      have hip' : sacc.in_plain = false := by rw [hip, hkind]; rfl
      rw [show mixStep acc b = ⟨acc.out, acc.buf ++ renderByte b, acc.kind⟩ from by
        unfold mixStep; rw [if_neg (by rw [hkind, hk]; simp)]]
      rw [show strStep AnsiColor.Reset AnsiColor.Yellow sacc b =
        ⟨sacc.output, sacc.buffer ++ escText b, false⟩ from by
          unfold strStep; rw [if_neg hp, if_neg (by rw [hip']; simp)]]
      exact ⟨ho, by rw [hb, hr], by rw [hkind]; rfl⟩

theorem str_fold_rel (msg : List Nat) :
    ∀ (acc : MixAcc) (sacc : StrAcc), StrRel acc sacc →
    StrRel (msg.foldl mixStep acc) (msg.foldl (strStep AnsiColor.Reset AnsiColor.Yellow) sacc) := by
  induction msg with
  | nil => intro acc sacc h; exact h
  | cons b bs ih => intro acc sacc h; exact ih _ _ (strStep_rel acc sacc b h)

theorem string_segments_reset (msg : List Nat) :
    bytes_to_string_segments msg AnsiColor.Reset =
      (bytes_to_mixed_segments msg).map resetColored := by
  have h := str_fold_rel msg ⟨[], "", SegmentKind.Plain⟩ ⟨[], "", true⟩ ⟨rfl, rfl, rfl⟩
  obtain ⟨ho, hb, hip⟩ := h
  show (if (msg.foldl (strStep AnsiColor.Reset (accentOf AnsiColor.Reset)) ⟨[], "", true⟩).buffer
        = "" then _ else _) = _
  rw [show accentOf AnsiColor.Reset = AnsiColor.Yellow from rfl]
  show (if (msg.foldl (strStep AnsiColor.Reset AnsiColor.Yellow) ⟨[], "", true⟩).buffer = ""
      then (msg.foldl (strStep AnsiColor.Reset AnsiColor.Yellow) ⟨[], "", true⟩).output
      else _) = _
  by_cases hbuf : (msg.foldl mixStep (⟨[], "", SegmentKind.Plain⟩ : MixAcc)).buf = ""
  · rw [if_pos (by rw [hb, hbuf]), ho]
    show _ = (flushSeg (msg.foldl mixStep ⟨[], "", SegmentKind.Plain⟩).out
      (msg.foldl mixStep ⟨[], "", SegmentKind.Plain⟩).buf
      (msg.foldl mixStep ⟨[], "", SegmentKind.Plain⟩).kind).map resetColored
    rw [show flushSeg (msg.foldl mixStep ⟨[], "", SegmentKind.Plain⟩).out
      (msg.foldl mixStep ⟨[], "", SegmentKind.Plain⟩).buf
      (msg.foldl mixStep ⟨[], "", SegmentKind.Plain⟩).kind
        = (msg.foldl mixStep ⟨[], "", SegmentKind.Plain⟩).out from by
        unfold flushSeg; rw [if_pos hbuf]]
  · rw [if_neg (by rw [hb]; exact hbuf)]
    show (msg.foldl (strStep AnsiColor.Reset AnsiColor.Yellow) ⟨[], "", true⟩).output ++ [_] =
      (flushSeg (msg.foldl mixStep ⟨[], "", SegmentKind.Plain⟩).out
        (msg.foldl mixStep ⟨[], "", SegmentKind.Plain⟩).buf
        (msg.foldl mixStep ⟨[], "", SegmentKind.Plain⟩).kind).map resetColored
    rw [show flushSeg (msg.foldl mixStep ⟨[], "", SegmentKind.Plain⟩).out
      (msg.foldl mixStep ⟨[], "", SegmentKind.Plain⟩).buf
      (msg.foldl mixStep ⟨[], "", SegmentKind.Plain⟩).kind
        = (msg.foldl mixStep ⟨[], "", SegmentKind.Plain⟩).out ++
            [⟨(msg.foldl mixStep ⟨[], "", SegmentKind.Plain⟩).buf,
              (msg.foldl mixStep ⟨[], "", SegmentKind.Plain⟩).kind⟩] from by
        unfold flushSeg; rw [if_neg hbuf]]
    rw [List.map_append, ho, hb, hip]
    cases hkind : (msg.foldl mixStep (⟨[], "", SegmentKind.Plain⟩ : MixAcc)).kind <;>
      simp [resetColored, hkind]

theorem leadsWith_iff (needle : List Nat) :
    ∀ hay : List Nat, leadsWith needle hay = true ↔ ∃ t, needle ++ t = hay := by
  induction needle with
  | nil => intro hay; simp [leadsWith]
  | cons n ns ih =>
    intro hay
    cases hay with
    | nil => simp [leadsWith]
    | cons h hs =>
      simp only [leadsWith, Bool.and_eq_true, beq_iff_eq]
      rw [ih hs]
      constructor
      · rintro ⟨rfl, t, rfl⟩; exact ⟨t, rfl⟩
      · rintro ⟨t, ht⟩
        rw [List.cons_append] at ht
        injection ht with h1 h2
        exact ⟨h1, t, h2⟩

theorem containsSub_iff (hay needle : List Nat) :
    containsSub hay needle = true ↔ ∃ s t, s ++ needle ++ t = hay := by
  induction hay with
  | nil =>
    simp only [containsSub, beq_iff_eq]
    constructor
    · rintro rfl; exact ⟨[], [], rfl⟩
    · rintro ⟨s, t, hst⟩
      rcases List.append_eq_nil.mp hst with ⟨h1, h2⟩
      exact (List.append_eq_nil.mp h1).2
  | cons b rest ih =>
    simp only [containsSub, Bool.or_eq_true]
    rw [ih, leadsWith_iff]
    constructor
    · rintro (⟨t, ht⟩ | ⟨s, t, hst⟩)
      · exact ⟨[], t, by simpa using ht⟩
      · exact ⟨b :: s, t, by rw [← hst]; rfl⟩
    · rintro ⟨s, t, hst⟩
      cases s with
      | nil => left; exact ⟨t, by simpa using hst⟩
      | cons s0 s' =>
        right
        rw [List.cons_append, List.cons_append] at hst
        injection hst with h1 h2
        exact ⟨s', t, h2⟩

theorem replace_all_esc_free (hay : List Nat) (nt repl : List Nat)
    (hfree : ∀ b ∈ hay, b ≠ 0x1b) :
    replace_all hay (0x1b :: nt) repl = hay := by
  induction hay with
  | nil => rw [replace_all]
  | cons b rest ih =>
    have hb : b ≠ 0x1b := hfree b (List.mem_cons_self b rest)
    have hlw : leadsWith (0x1b :: nt) (b :: rest) = false := by
      simp only [leadsWith, Bool.and_eq_false_iff]
      left
      simp [beq_iff_eq]
      omega
    rw [replace_all, dif_neg (by simp [hlw])]
    rw [ih (fun x hx => hfree x (List.mem_cons_of_mem b hx))]

theorem ansiPatterns_mem_esc :
    ∀ pc ∈ ansiPatterns, (0x1b : Nat) ∈ pc.1 := by decide

theorem containsSub_mem (hay needle : List Nat) (h : containsSub hay needle = true) :
    ∀ b ∈ needle, b ∈ hay := by
  obtain ⟨s, t, hst⟩ := (containsSub_iff hay needle).mp h
  intro b hb
  rw [← hst]
  simp [hb]

theorem findPattern_eq_none (buf : List Nat) (pats : List (List Nat × AnsiColor)) :
    findPattern buf pats = none ↔ ∀ pc ∈ pats, containsSub buf pc.1 = false := by
  induction pats with
  | nil => simp [findPattern]
  | cons pc rest ih =>
    obtain ⟨p, c⟩ := pc
    by_cases h : containsSub buf p = true
    · simp [findPattern, h]
    · rw [show findPattern buf ((p, c) :: rest) = findPattern buf rest from by
        simp [findPattern, h]]
      rw [ih]
      simp only [List.mem_cons]
      constructor
      · rintro hall pc' (rfl | hmem)
        · exact Bool.not_eq_true _ ▸ (by simpa using h)
        · exact hall pc' hmem
      · intro hall pc' hmem
        exact hall pc' (Or.inr hmem)

theorem findPattern_none_esc_free (buf : List Nat) (hfree : ∀ b ∈ buf, b ≠ 0x1b) :
    findPattern buf ansiPatterns = none := by
  rw [findPattern_eq_none]
  intro pc hmem
  by_contra hcontra
  have hc : containsSub buf pc.1 = true := by
    cases hcs : containsSub buf pc.1
    · exact absurd hcs hcontra
    · rfl
  have : (0x1b : Nat) ∈ buf :=
    containsSub_mem buf pc.1 hc 0x1b (ansiPatterns_mem_esc pc hmem)
  exact hfree 0x1b this rfl

theorem ansi_fold_esc_free (msg : List Nat) :
    ∀ acc : AnsiAcc, (∀ b ∈ acc.buffer, b ≠ 0x1b) → (∀ b ∈ msg, b ≠ 0x1b) →
    msg.foldl ansiStep acc = ⟨acc.output, acc.buffer ++ msg, acc.color⟩ := by
  induction msg with
  | nil => intro acc _ _; rw [List.foldl_nil, List.append_nil]
  | cons b rest ih =>
    intro acc hbuf hmsg
    have hb : b ≠ 0x1b := hmsg b (List.mem_cons_self b rest)
    have hbuf' : ∀ x ∈ acc.buffer ++ [b], x ≠ 0x1b := by
      intro x hx
      rcases List.mem_append.mp hx with hx | hx
      · exact hbuf x hx
      · rw [List.mem_singleton.mp hx]; exact hb
    have hstep : ansiStep acc b = ⟨acc.output, acc.buffer ++ [b], acc.color⟩ := by
      by_cases hm : b = 0x6d
      · have hnone := findPattern_none_esc_free (acc.buffer ++ [b]) hbuf'
        unfold ansiStep
        rw [if_pos hm, hnone]
      · unfold ansiStep
        rw [if_neg hm]
    rw [List.foldl_cons, hstep,
      ih ⟨acc.output, acc.buffer ++ [b], acc.color⟩ hbuf'
        (fun x hx => hmsg x (List.mem_cons_of_mem b hx))]
    simp [List.append_assoc]

theorem bytes_to_string_segments_nil (color : AnsiColor) :
    bytes_to_string_segments [] color = [] := rfl

theorem ansi_esc_free (bytes : List Nat) (hfree : ∀ b ∈ bytes, b ≠ 0x1b) :
    bytes_to_ansi_segments bytes = bytes_to_string_segments bytes AnsiColor.Reset := by
  have hstrip : stripCtl bytes = bytes := by
    unfold stripCtl
    rw [replace_all_esc_free bytes _ _ hfree, replace_all_esc_free bytes _ _ hfree,
      replace_all_esc_free bytes _ _ hfree]
  unfold bytes_to_ansi_segments ansiRun
  rw [hstrip, ansi_fold_esc_free bytes ⟨[], [], AnsiColor.Reset⟩ (by simp) hfree]
  cases hb : bytes with
  | nil => rfl
  | cons x xs =>
    rw [← hb]
    have hne : ([] : List Nat) ++ bytes ≠ [] := by rw [hb]; simp
    show (if ([] : List Nat) ++ bytes = [] then _ else
      _ ++ bytes_to_string_segments (([] : List Nat) ++ bytes) AnsiColor.Reset) = _
    rw [if_neg hne]
    show bytes_to_string_segments (([] : List Nat) ++ bytes) AnsiColor.Reset = _
    rw [List.nil_append]

/-- Claim C9: on every input containing no ESC (0x1b) byte,
`bytes_to_ansi_segments` returns exactly the segments of
`bytes_to_mixed_segments` with every `Plain` segment colored `Reset` and
every `Escape` segment colored `Yellow`. -/
theorem C9_ansi_refines_mixed (bytes : List Nat) (hfree : ∀ b ∈ bytes, b ≠ 0x1b) :
    bytes_to_ansi_segments bytes = (bytes_to_mixed_segments bytes).map resetColored := by
  rw [ansi_esc_free bytes hfree, string_segments_reset]

theorem C9_witness :
    (∀ b ∈ [0x41, 0x0a, 0x42, 0x00], b ≠ 0x1b) ∧
    bytes_to_ansi_segments [0x41, 0x0a, 0x42, 0x00] =
      (bytes_to_mixed_segments [0x41, 0x0a, 0x42, 0x00]).map resetColored :=
  ⟨by decide, C9_ansi_refines_mixed [0x41, 0x0a, 0x42, 0x00] (by decide)⟩

/-! ## Theorems: SGR match step of `bytes_to_ansi_segments` -/

theorem ansiPatterns_last : ∀ pc ∈ ansiPatterns, pc.1.getLast? = some 0x6d := by decide

theorem ansiPatterns_ne_nil : ∀ pc ∈ ansiPatterns, pc.1 ≠ [] := by decide

theorem ansiPatterns_not_in_nil : ∀ pc ∈ ansiPatterns, containsSub [] pc.1 = false := by decide

theorem concat_of_getLast? (l : List Nat) (x : Nat) (h : l.getLast? = some x) :
    ∃ q, l = q ++ [x] := by
  induction l with
  | nil => simp at h
  | cons a rest ih =>
    cases rest with
    | nil =>
      have : a = x := by simpa [List.getLast?] using h
      exact ⟨[], by simp [this]⟩
    | cons b r =>
      rw [List.getLast?_cons_cons] at h
      obtain ⟨q, hq⟩ := ih h
      exact ⟨a :: q, by rw [List.cons_append, ← hq]⟩

theorem append_singleton_inj {l₁ l₂ : List Nat} {a b : Nat} (h : l₁ ++ [a] = l₂ ++ [b]) :
    l₁ = l₂ ∧ a = b := by
  have h1 := congrArg List.dropLast h
  have h2 := congrArg List.getLast? h
  rw [List.dropLast_concat, List.dropLast_concat] at h1
  rw [List.getLast?_concat, List.getLast?_concat] at h2
  refine ⟨h1, ?_⟩
  injection h2

theorem occurrence_extend (buffer : List Nat) (b : Nat) (p : List Nat)
    (hnc : containsSub buffer p = false)
    (s t : List Nat) (hst : s ++ p ++ t = buffer ++ [b]) :
    t = [] ∧ buffer ++ [b] = s ++ p := by
  rcases List.eq_nil_or_concat t with rfl | ⟨t', tl, rfl⟩
  · exact ⟨rfl, by rw [← hst, List.append_nil]⟩
  · exfalso
    have h' : (s ++ p ++ t') ++ [tl] = buffer ++ [b] := by
      rw [← hst]; simp [List.append_assoc]
    obtain ⟨heq, -⟩ := append_singleton_inj h'
    have : containsSub buffer p = true := (containsSub_iff _ _).mpr ⟨s, t', heq⟩
    rw [this] at hnc
    exact Bool.noConfusion hnc

theorem ansi_fold_nomatch (msg : List Nat) :
    ∀ acc : AnsiAcc,
    (∀ pc ∈ ansiPatterns, containsSub acc.buffer pc.1 = false) →
    ∀ pc ∈ ansiPatterns, containsSub (msg.foldl ansiStep acc).buffer pc.1 = false := by
  induction msg with
  | nil => intro acc h; exact h
  | cons b rest ih =>
    intro acc h
    rw [List.foldl_cons]
    apply ih
    intro pc hmem
    by_cases hm : b = 0x6d
    · cases hfp : findPattern (acc.buffer ++ [b]) ansiPatterns with
      | some pcc =>
        obtain ⟨p', c'⟩ := pcc
        rw [show (ansiStep acc b).buffer = [] from by
          unfold ansiStep; rw [if_pos hm, hfp]]
        exact ansiPatterns_not_in_nil pc hmem
      | none =>
        rw [show (ansiStep acc b).buffer = acc.buffer ++ [b] from by
          unfold ansiStep; rw [if_pos hm, hfp]]
        exact (findPattern_eq_none _ _).mp hfp pc hmem
    · rw [show (ansiStep acc b).buffer = acc.buffer ++ [b] from by
        unfold ansiStep; rw [if_neg hm]]
      by_contra hcontra
      have hc : containsSub (acc.buffer ++ [b]) pc.1 = true := by
        revert hcontra
        cases containsSub (acc.buffer ++ [b]) pc.1 <;> simp
      obtain ⟨s, t, hst⟩ := (containsSub_iff _ _).mp hc
      obtain ⟨-, hsplit⟩ := occurrence_extend acc.buffer b pc.1 (h pc hmem) s t hst
      obtain ⟨q, hq⟩ := concat_of_getLast? pc.1 0x6d (ansiPatterns_last pc hmem)
      rw [hq, ← List.append_assoc] at hsplit
      exact hm (append_singleton_inj hsplit).2

theorem findPattern_some_spec (buf : List Nat) (pats : List (List Nat × AnsiColor))
    (p : List Nat) (c : AnsiColor) (h : findPattern buf pats = some (p, c)) :
    (p, c) ∈ pats ∧ containsSub buf p = true := by
  induction pats with
  | nil => simp [findPattern] at h
  | cons pc rest ih =>
    obtain ⟨p', c'⟩ := pc
    by_cases hcs : containsSub buf p' = true
    · rw [show findPattern buf ((p', c') :: rest) = some (p', c') from by
        simp [findPattern, hcs]] at h
      injection h with h
      injection h with h1 h2
      subst h1; subst h2
      exact ⟨List.mem_cons_self _ _, hcs⟩
    · rw [show findPattern buf ((p', c') :: rest) = findPattern buf rest from by
        simp [findPattern, hcs]] at h
      obtain ⟨hm2, hc2⟩ := ih h
      exact ⟨List.mem_cons_of_mem _ hm2, hc2⟩

theorem leadsWith_refl (l : List Nat) : leadsWith l l = true :=
  (leadsWith_iff l l).mpr ⟨[], List.append_nil l⟩

theorem no_inner_occurrence (buffer s p : List Nat) (m : Nat)
    (hsplit : buffer ++ [m] = s ++ p) (hinv : containsSub buffer p = false) :
    ∀ i, i < s.length → leadsWith p ((s ++ p).drop i) = false := by
  intro i hi
  by_contra hcontra
  have hlw : leadsWith p ((s ++ p).drop i) = true := by
    revert hcontra
    cases leadsWith p ((s ++ p).drop i) <;> simp
  obtain ⟨u, hu⟩ := (leadsWith_iff p _).mp hlw
  have hdecomp : (s ++ p).take i ++ (p ++ u) = s ++ p := by
    rw [hu, List.take_append_drop]
  have hlen_take : ((s ++ p).take i).length = i := by
    rw [List.length_take, List.length_append]
    omega
  have hlenu : u.length = s.length - i := by
    have hl := congrArg List.length hdecomp
    simp only [List.length_append, hlen_take] at hl
    omega
  have hu_ne : u ≠ [] := by
    intro hnil
    rw [hnil] at hlenu
    simp at hlenu
    omega
  rcases List.eq_nil_or_concat u with rfl | ⟨u', ul, rfl⟩
  · exact hu_ne rfl
  · rw [List.concat_eq_append] at hdecomp
    have h' : ((s ++ p).take i ++ p ++ u') ++ [ul] = buffer ++ [m] := by
      rw [hsplit]
      conv_rhs => rw [← hdecomp]
      simp [List.append_assoc]
    obtain ⟨heq, -⟩ := append_singleton_inj h'
    have : containsSub buffer p = true :=
      (containsSub_iff _ _).mpr ⟨(s ++ p).take i, u', heq⟩
    rw [this] at hinv
    exact Bool.noConfusion hinv

theorem replace_all_tail (p : List Nat) (hp : p ≠ []) :
    ∀ s : List Nat,
    (∀ i, i < s.length → leadsWith p ((s ++ p).drop i) = false) →
    replace_all (s ++ p) p [] = s := by
  intro s
  induction s with
  | nil =>
    intro _
    cases p with
    | nil => exact absurd rfl hp
    | cons p0 pr =>
      rw [List.nil_append, replace_all, dif_pos ⟨hp, leadsWith_refl (p0 :: pr)⟩,
        List.drop_length, replace_all]
      rfl
  | cons a s' ih =>
    intro hno
    have h0 : leadsWith p (a :: (s' ++ p)) = false := by
      have := hno 0 (by simp)
      simpa using this
    rw [List.cons_append, replace_all,
      dif_neg (fun hcc => by rw [h0] at hcc; exact Bool.noConfusion hcc.2)]
    rw [ih (fun i hi => by
      have := hno (i + 1) (by simpa using Nat.succ_lt_succ hi)
      rw [List.cons_append, List.drop_succ_cons] at this
      exact this)]

/-- Claim C7: whenever the `bytes_to_ansi_segments` loop has just pushed a
byte `m` and the buffer matches a pattern of the fixed ordered SGR table,
the step emits exactly the buffered content before the match, rendered with
the previously active color, clears the buffer, and sets the active color to
the matched one. -/
theorem C7_sgr_match (msg : List Nat) (b : Nat) (hb : b = 0x6d)
    (p : List Nat) (c : AnsiColor)
    (hfind : findPattern ((ansiRun msg).buffer ++ [b]) ansiPatterns = some (p, c)) :
    ∃ pre, (ansiRun msg).buffer ++ [b] = pre ++ p ∧
      ansiStep (ansiRun msg) b =
        ⟨(ansiRun msg).output ++ bytes_to_string_segments pre (ansiRun msg).color,
          [], c⟩ := by
  subst hb
  obtain ⟨hmem, hcont⟩ := findPattern_some_spec _ _ _ _ hfind
  have hinv : containsSub (ansiRun msg).buffer p = false :=
    ansi_fold_nomatch msg ⟨[], [], AnsiColor.Reset⟩
      (fun pc hpc => ansiPatterns_not_in_nil pc hpc) (p, c) hmem
  obtain ⟨s, t, hst⟩ := (containsSub_iff _ _).mp hcont
  obtain ⟨-, hsplit⟩ := occurrence_extend (ansiRun msg).buffer 0x6d p hinv s t hst
  have hp : p ≠ [] := ansiPatterns_ne_nil (p, c) hmem
  have hno := no_inner_occurrence (ansiRun msg).buffer s p 0x6d hsplit hinv
  refine ⟨s, hsplit, ?_⟩
  have hstep : ansiStep (ansiRun msg) 0x6d =
      ⟨(ansiRun msg).output ++
          bytes_to_string_segments (replace_all ((ansiRun msg).buffer ++ [0x6d]) p [])
            (ansiRun msg).color, [], c⟩ := by
    unfold ansiStep
    rw [if_pos rfl, hfind]
  rw [hstep, hsplit, replace_all_tail p hp s hno]

theorem C7_witness :
    ((0x6d : Nat) = 0x6d ∧
      findPattern ((ansiRun [0x41, 0x1b, 0x5b, 0x30]).buffer ++ [0x6d]) ansiPatterns =
        some ([0x1b, 0x5b, 0x30, 0x6d], AnsiColor.Reset)) ∧
    (∃ pre, (ansiRun [0x41, 0x1b, 0x5b, 0x30]).buffer ++ [0x6d] =
        pre ++ [0x1b, 0x5b, 0x30, 0x6d] ∧
      ansiStep (ansiRun [0x41, 0x1b, 0x5b, 0x30]) 0x6d =
        ⟨(ansiRun [0x41, 0x1b, 0x5b, 0x30]).output ++
            bytes_to_string_segments pre (ansiRun [0x41, 0x1b, 0x5b, 0x30]).color,
          [], AnsiColor.Reset⟩) :=
  ⟨⟨rfl, by decide⟩,
    C7_sgr_match [0x41, 0x1b, 0x5b, 0x30] 0x6d rfl [0x1b, 0x5b, 0x30, 0x6d]
      AnsiColor.Reset (by decide)⟩

end Scope
